import Mathlib

/-!
Verification of the local-dictator dictation core against its specification.

Python strings are modelled as `List Char`; audio sample arrays are modelled as
`List ℝ` (exact real arithmetic in place of IEEE floats, which is the standard
idealisation for this DSP code).  Each definition mirrors one function or
method of the repository, named after it.
-/

namespace Dictation

/-! ## Python string primitives (semantics of `str.split`, `str.strip`,
`str.lower`, `str.rstrip` as used in `main.py` and `transcriber.py`) -/

/-- Python whitespace characters (`' '`, `'\t'`, `'\n'`, `'\r'`, `'\x0b'`,
`'\x0c'`), identified by codepoint. -/
def pyIsSpace (c : Char) : Bool :=
  c.toNat = 32 || c.toNat = 9 || c.toNat = 10 || c.toNat = 13 ||
  c.toNat = 11 || c.toNat = 12

/-- Python `str.split()` with no separator: split on runs of whitespace,
discarding empty words. -/
def pySplit (cs : List Char) : List (List Char) :=
  (cs.foldr
    (fun c acc =>
      if pyIsSpace c then [] :: acc
      else
        match acc with
        | [] => [[c]]
        | w :: ws => (c :: w) :: ws)
    []).filter (fun w => w ≠ [])

/-- Python `str.strip()`: remove leading and trailing whitespace. -/
def pyStrip (cs : List Char) : List Char :=
  (cs.dropWhile pyIsSpace).rdropWhile pyIsSpace

/-- Python `str.lower()` (ASCII case mapping, which covers every string the
code compares). -/
def pyLower (cs : List Char) : List Char :=
  cs.map Char.toLower

/-- Python `s.rstrip(chars)`: remove trailing characters drawn from `chars`. -/
def pyRstrip (cs : List Char) (chars : List Char) : List Char :=
  cs.rdropWhile (fun c => c ∈ chars)

/-- Python `" ".join(words)`. -/
def joinWords (ws : List (List Char)) : List Char :=
  List.intercalate [' '] ws

/-! ## TranscriptReconciler (`DictationController._update_streaming_text`,
src/dictation/main.py lines 69-105) -/

/-- Commands sent to the external injector: `delete_chars(n)` and
`inject_text(s)`. -/
inductive Cmd where
  | delete (n : ℕ)
  | insert (s : List Char)
deriving DecidableEq

/-- The common word-prefix count computed by the loop in
`_update_streaming_text` (lines 77-82): the longest common prefix of the two
word lists. -/
def commonPrefixLen : List (List Char) → List (List Char) → ℕ
  | a :: as, b :: bs => if a = b then commonPrefixLen as bs + 1 else 0
  | _, _ => 0

/-- `DictationController._update_streaming_text(new_text)`: returns the new
`_last_text` together with the list of injector commands emitted, in order. -/
def updateStreamingText (last_text new_text : List Char) :
    List Char × List Cmd :=
  if new_text = [] then (last_text, [])
  else
    let old_words := pySplit last_text
    let new_words := pySplit new_text
    let common_count := commonPrefixLen old_words new_words
    let stable_part := joinWords (new_words.take common_count)
    let old_suffix := joinWords (old_words.drop common_count)
    let new_suffix := joinWords (new_words.drop common_count)
    let chars_to_delete :=
      old_suffix.length +
        (if old_suffix ≠ [] ∧ stable_part ≠ [] then 1 else 0)
    let text_to_add :=
      if new_suffix ≠ [] then
        (if stable_part ≠ [] then ' ' :: new_suffix else new_suffix)
      else []
    (new_text,
      (if 0 < chars_to_delete then [Cmd.delete chars_to_delete] else []) ++
      (if text_to_add ≠ [] then [Cmd.insert text_to_add] else []))

/-! ## StreamingController chunk path (`DictationController._on_audio_chunk`
and `do_chunk_transcribe`, src/dictation/main.py lines 52-67) -/

/-- Controller state relevant to one chunk-recognition cycle: the stored
`_last_text` and the `_streaming_active` flag. -/
structure ControllerState where
  last_text : List Char
  streaming_active : Bool
deriving DecidableEq

/-- Outcome of one chunk recognition applied to the controller
(`do_chunk_transcribe`): `result = none` models `transcribe` raising (the
exception propagates, the `finally` only releases the lock), `result = some t`
models a returned text `t`.  Returns the new state and the emitted injector
commands. -/
def onChunkResult (st : ControllerState) (result : Option (List Char)) :
    ControllerState × List Cmd :=
  if st.streaming_active then
    match result with
    | none => (st, [])
    | some text =>
      if st.streaming_active ∧ text ≠ [] then
        let r := updateStreamingText st.last_text text
        ({ st with last_text := r.1 }, r.2)
      else (st, [])
  else (st, [])

/-- The edit command list described by the (amended) reconciliation claim:
split both texts into words, take the longest common word prefix, delete the
space-joined old suffix plus one separating space exactly when both the
stable prefix and the old suffix are non-empty, then insert the space-joined
new suffix prefixed by a single space exactly when both the stable prefix and
the new suffix are non-empty. -/
def reconcilerSpecCmds (last_text new_text : List Char) : List Cmd :=
  let k := commonPrefixLen (pySplit last_text) (pySplit new_text)
  let stable := joinWords ((pySplit new_text).take k)
  let old_suffix := joinWords ((pySplit last_text).drop k)
  let new_suffix := joinWords ((pySplit new_text).drop k)
  let deletes :=
    old_suffix.length + (if old_suffix ≠ [] ∧ stable ≠ [] then 1 else 0)
  (if 0 < deletes then [Cmd.delete deletes] else []) ++
  (if new_suffix ≠ [] then
    [Cmd.insert (if stable ≠ [] ∧ new_suffix ≠ [] then ' ' :: new_suffix
                 else new_suffix)]
   else [])

/-- C1 (counterexample): on `old="hello world"`, `new="hello there"` the code
deletes 6 characters (the word `"world"` plus the separating space), not the
5 characters asserted by the claim; the inserted text is `" there"`. -/
theorem c1_counterexample :
    (updateStreamingText "hello world".toList "hello there".toList).2 =
      [Cmd.delete 6, Cmd.insert " there".toList] ∧
    (updateStreamingText "hello world".toList "hello there".toList).2 ≠
      [Cmd.delete 5, Cmd.insert " there".toList] := by
  decide

/-- C1 (amended): for non-empty new text the reconciler emits exactly the
delete-then-insert commands of the word-prefix rule — delete count =
length of the space-joined old suffix plus one extra character exactly when
both the stable prefix and the old suffix are non-empty, insert = the
space-joined new suffix with a leading space exactly when both the stable
prefix and the new suffix are non-empty — and stores the new text; in
particular `old="hello world"`, `new="hello there"` yields delete count 6 and
insert `" there"`. -/
theorem c1_reconciler_rule (last_text new_text : List Char)
    (h : new_text ≠ []) :
    updateStreamingText last_text new_text =
      (new_text, reconcilerSpecCmds last_text new_text) := by
  unfold updateStreamingText reconcilerSpecCmds
  rw [if_neg h]
  by_cases hns : joinWords ((pySplit new_text).drop
      (commonPrefixLen (pySplit last_text) (pySplit new_text))) = []
  · simp [hns]
  · by_cases hst : joinWords ((pySplit new_text).take
        (commonPrefixLen (pySplit last_text) (pySplit new_text))) = [] <;>
      simp [hns, hst]

/-- C1 (witness): the amended rule applied at the concrete example. -/
theorem c1_reconciler_rule_witness :
    "hello there".toList ≠ ([] : List Char) ∧
    updateStreamingText "hello world".toList "hello there".toList =
      ("hello there".toList,
        reconcilerSpecCmds "hello world".toList "hello there".toList) :=
  ⟨by decide, c1_reconciler_rule _ _ (by decide)⟩

/-- C3: an empty recognition result or a raised recognizer error produces no
injector command and leaves the stored last-emitted text (and the whole
controller state) unchanged. -/
theorem c3_empty_recognition_ignored (st : ControllerState)
    (result : Option (List Char)) (h : result = none ∨ result = some []) :
    onChunkResult st result = (st, []) := by
  rcases h with rfl | rfl <;> simp [onChunkResult]

/-- C3 (witness): concrete controller state with stored text, one empty
result and one failure result, both leaving state untouched. -/
theorem c3_empty_recognition_ignored_witness :
    ((some ([] : List Char) = none ∨ some ([] : List Char) = some []) ∧
      onChunkResult ⟨"hello world".toList, true⟩ (some []) =
        (⟨"hello world".toList, true⟩, [])) ∧
    (((none : Option (List Char)) = none ∨
        (none : Option (List Char)) = some []) ∧
      onChunkResult ⟨"hello world".toList, true⟩ none =
        (⟨"hello world".toList, true⟩, [])) :=
  ⟨⟨Or.inr rfl, c3_empty_recognition_ignored _ _ (Or.inr rfl)⟩,
   ⟨Or.inl rfl, c3_empty_recognition_ignored _ _ (Or.inl rfl)⟩⟩

/-! ## AudioRecorder (src/dictation/audio.py lines 86-160).  The buffer is
sample-type-agnostic, so the state is polymorphic in the sample type; the
stored list models `self._buffer[:self._write_pos]`. -/

/-- `AudioRecorder.BUFFER_SIZE = SAMPLE_RATE * MAX_DURATION` (16000 × 300). -/
def BUFFER_SIZE : ℕ := 16000 * 300

/-- The mutable fields of `AudioRecorder` (the stream handle is external). -/
structure RecorderState (α : Type) where
  buffer : List α
  recording : Bool
  hasCallback : Bool
  chunkSamples : ℕ
  samplesSinceChunk : ℕ
deriving DecidableEq

/-- `AudioRecorder.__init__`. -/
def RecorderState.init : RecorderState α :=
  ⟨[], false, false, 0, 0⟩

/-- The lock-guarded part of `AudioRecorder.start(chunk_callback,
chunk_seconds)`: reset the write position, set the recording flag, record
whether a chunk callback was supplied, and set the chunk size in samples
(already converted from seconds). -/
def RecorderState.start (hasCb : Bool) (chunkSamples : ℕ) : RecorderState α :=
  ⟨[], true, hasCb, chunkSamples, 0⟩

/-- `AudioRecorder._callback(indata, frames, ...)` for one delivered block
(`frames = len(data)` after the mono flatten): append the block truncated at
`BUFFER_SIZE`, then run the chunk-notification logic.  Returns the new state
and the buffer snapshot passed to the chunk callback, if it fired. -/
def RecorderState.callback (st : RecorderState α) (data : List α) :
    RecorderState α × Option (List α) :=
  if st.recording then
    let end_pos := min (st.buffer.length + data.length) BUFFER_SIZE
    let copy_len := end_pos - st.buffer.length
    let buffer' := st.buffer ++ data.take copy_len
    if st.hasCallback ∧ 0 < st.chunkSamples then
      let counter := st.samplesSinceChunk + data.length
      if st.chunkSamples ≤ counter then
        ({ st with buffer := buffer', samplesSinceChunk := 0 }, some buffer')
      else
        ({ st with buffer := buffer', samplesSinceChunk := counter }, none)
    else ({ st with buffer := buffer' }, none)
  else (st, none)

/-- `AudioRecorder.stop()`: clear the recording flag and the callback, then
return the accumulated snapshot (empty if nothing was written) and reset the
write position. -/
def RecorderState.stop (st : RecorderState α) : List α × RecorderState α :=
  let st1 := { st with recording := false, hasCallback := false }
  if st1.buffer.length = 0 then ([], st1)
  else (st1.buffer, { st1 with buffer := [] })

/-- Feed a sequence of hardware blocks through `_callback`, collecting the
chunk notifications in order. -/
def runFeeds (st : RecorderState α) : List (List α) → RecorderState α × List (List α)
  | [] => (st, [])
  | b :: bs =>
    let r := st.callback b
    let rest := runFeeds r.1 bs
    (rest.1, r.2.toList ++ rest.2)

/-! Helper lemmas about the recorder step. -/

theorem callback_flags (st : RecorderState α) (b : List α) :
    (st.callback b).1.recording = st.recording ∧
    (st.callback b).1.hasCallback = st.hasCallback ∧
    (st.callback b).1.chunkSamples = st.chunkSamples := by
  unfold RecorderState.callback
  by_cases hr : st.recording <;> simp [hr]
  by_cases hc : st.hasCallback ∧ 0 < st.chunkSamples <;> simp [hc]
  by_cases hcnt : st.chunkSamples ≤ st.samplesSinceChunk + b.length <;>
    simp [hcnt]

theorem callback_not_recording (st : RecorderState α) (b : List α)
    (h : st.recording = false) : st.callback b = (st, none) := by
  unfold RecorderState.callback
  simp [h]

/-- While recording, `_callback` appends exactly the block prefix that fits:
the buffer becomes the capacity-truncation of `acc ++ b` whenever it was the
capacity-truncation of `acc`. -/
theorem callback_buffer_take (st : RecorderState α) (b acc : List α)
    (hr : st.recording = true) (hb : st.buffer = acc.take BUFFER_SIZE) :
    (st.callback b).1.buffer = (acc ++ b).take BUFFER_SIZE := by
  have key : st.buffer ++ b.take
      (min (st.buffer.length + b.length) BUFFER_SIZE - st.buffer.length) =
      (acc ++ b).take BUFFER_SIZE := by
    rw [hb, List.take_append_eq_append_take]
    congr 1
    rw [List.length_take]
    have hidx : min (min BUFFER_SIZE acc.length + b.length) BUFFER_SIZE -
        min BUFFER_SIZE acc.length = min b.length (BUFFER_SIZE - acc.length) :=
      by omega
    rw [hidx]
    rcases Nat.le_total b.length (BUFFER_SIZE - acc.length) with h1 | h1
    · rw [Nat.min_eq_left h1, List.take_of_length_le (le_refl _),
        List.take_of_length_le h1]
    · rw [Nat.min_eq_right h1]
  unfold RecorderState.callback
  by_cases hc : st.hasCallback ∧ 0 < st.chunkSamples
  · by_cases hcnt : st.chunkSamples ≤ st.samplesSinceChunk + b.length <;>
      simp [hr, hc, hcnt, key]
  · simp [hr, hc, key]

/-- Every chunk emitted while running from a state whose buffer is the
capacity-truncation of `acc` is a prefix of `acc` followed by all fed
blocks. -/
theorem runFeeds_chunks_prefix (blocks : List (List α)) :
    ∀ (st : RecorderState α) (acc : List α), st.recording = true →
      st.buffer = acc.take BUFFER_SIZE →
      ∀ c ∈ (runFeeds st blocks).2, ∃ u, c ++ u = acc ++ blocks.flatten := by
  induction blocks with
  | nil => intro st acc _ _ c hc; simp [runFeeds] at hc
  | cons b bs ih =>
    intro st acc hr hb c hc
    have hbuf' := callback_buffer_take st b acc hr hb
    have hrec' : (st.callback b).1.recording = true := by
      rw [(callback_flags st b).1, hr]
    simp only [runFeeds, List.mem_append] at hc
    rcases hc with hc | hc
    · -- c is the chunk emitted at this step: it equals the new buffer.
      have hc' : (st.callback b).2 = some c := by
        rcases h2 : (st.callback b).2 with _ | v <;> rw [h2] at hc <;>
          simp at hc
        · rw [hc]
      have hcbuf : c = (st.callback b).1.buffer := by
        unfold RecorderState.callback at hc'
        by_cases hcb : st.hasCallback ∧ 0 < st.chunkSamples
        · by_cases hcnt : st.chunkSamples ≤ st.samplesSinceChunk + b.length
          · simp [hr, hcb, hcnt, RecorderState.callback] at hc' ⊢
            simp [hc'.symm]
          · simp [hr, hcb, hcnt] at hc'
        · simp [hr, hcb] at hc'
      refine ⟨((acc ++ b).drop BUFFER_SIZE) ++ bs.flatten, ?_⟩
      rw [hcbuf, hbuf', List.flatten_cons, ← List.append_assoc,
        ← List.append_assoc, List.take_append_drop]
    · have := ih (st.callback b).1 (acc ++ b) hrec' hbuf' c hc
      rcases this with ⟨u, hu⟩
      exact ⟨u, by rw [hu, List.flatten_cons, List.append_assoc]⟩

/-- C4: for a session started with a chunk callback and a positive chunk size,
a block triggers the callback exactly when at least `chunk_size_samples` new
samples have arrived since the previous notification, the counter resets to
zero at each notification, and every notification passes a prefix of the
concatenation of all audio captured in the session. -/
theorem c4_chunk_notification :
    (∀ (α : Type) (cs : ℕ) (blocks : List (List α)) (c : List α),
        c ∈ (runFeeds (RecorderState.start true cs) blocks).2 →
        ∃ u, c ++ u = blocks.flatten) ∧
    (∀ (α : Type) (st : RecorderState α) (b : List α),
        st.recording = true → st.hasCallback = true → 0 < st.chunkSamples →
        (((st.callback b).2 ≠ none ↔
            st.chunkSamples ≤ st.samplesSinceChunk + b.length) ∧
          ((st.callback b).2 ≠ none →
            (st.callback b).1.samplesSinceChunk = 0))) := by
  constructor
  · intro α cs blocks c hc
    have := runFeeds_chunks_prefix blocks (RecorderState.start true cs) []
      rfl (by simp [RecorderState.start]) c hc
    simpa using this
  · intro α st b hr hcb hcs
    unfold RecorderState.callback
    by_cases hcnt : st.chunkSamples ≤ st.samplesSinceChunk + b.length <;>
      simp [hr, hcb, hcs, hcnt]

/-- C4 (witness): chunk size 2, blocks `[[0,1],[2]]`; the first block fires a
notification with the full prefix `[0,1]`, and the step-level conditions hold
at a concrete state. -/
theorem c4_chunk_notification_witness :
    ([0, 1] ∈ (runFeeds (RecorderState.start true 2) [[0, 1], [2]]).2 ∧
      ∃ u, ([0, 1] : List ℕ) ++ u = ([[0, 1], [2]] : List (List ℕ)).flatten) ∧
    ((⟨[5], true, true, 2, 1⟩ : RecorderState ℕ).recording = true ∧
      ((((⟨[5], true, true, 2, 1⟩ : RecorderState ℕ).callback [7]).2 ≠ none ↔
          2 ≤ 1 + 1) ∧
        (((⟨[5], true, true, 2, 1⟩ : RecorderState ℕ).callback [7]).2 ≠ none →
          (((⟨[5], true, true, 2, 1⟩ : RecorderState ℕ).callback
              [7]).1.samplesSinceChunk = 0)))) :=
  ⟨⟨by decide, c4_chunk_notification.1 ℕ 2 [[0, 1], [2]] [0, 1] (by decide)⟩,
   ⟨rfl, c4_chunk_notification.2 ℕ ⟨[5], true, true, 2, 1⟩ [7] rfl rfl
      (by decide)⟩⟩

theorem runFeeds_not_recording (blocks : List (List α))
    (st : RecorderState α) (h : st.recording = false) :
    runFeeds st blocks = (st, []) := by
  induction blocks with
  | nil => rfl
  | cons b bs ih => simp [runFeeds, callback_not_recording st b h, ih]

/-- While recording and within capacity, `_callback` appends the whole
block. -/
theorem callback_buffer_within (st : RecorderState α) (b : List α)
    (hr : st.recording = true)
    (h : st.buffer.length + b.length ≤ BUFFER_SIZE) :
    (st.callback b).1.buffer = st.buffer ++ b := by
  have key : st.buffer ++ b.take
      (min (st.buffer.length + b.length) BUFFER_SIZE - st.buffer.length) =
      st.buffer ++ b := by
    rw [Nat.min_eq_left h, Nat.add_sub_cancel_left,
      List.take_of_length_le (le_refl _)]
  unfold RecorderState.callback
  by_cases hc : st.hasCallback ∧ 0 < st.chunkSamples
  · by_cases hcnt : st.chunkSamples ≤ st.samplesSinceChunk + b.length <;>
      simp [hr, hc, hcnt, key]
  · simp [hr, hc, key]

theorem runFeeds_buffer_within (blocks : List (List α)) :
    ∀ st : RecorderState α, st.recording = true →
      st.buffer.length + blocks.flatten.length ≤ BUFFER_SIZE →
      (runFeeds st blocks).1.buffer = st.buffer ++ blocks.flatten ∧
        (runFeeds st blocks).1.recording = true := by
  induction blocks with
  | nil => intro st hr _; simpa [runFeeds] using hr
  | cons b bs ih =>
    intro st hr h
    simp only [List.flatten_cons, List.length_append] at h
    have hb : (st.callback b).1.buffer = st.buffer ++ b :=
      callback_buffer_within st b hr (by omega)
    have hr' : (st.callback b).1.recording = true := by
      rw [(callback_flags st b).1, hr]
    have := ih (st.callback b).1 hr'
      (by rw [hb]; simp only [List.length_append]; omega)
    refine ⟨?_, this.2⟩
    show (runFeeds (st.callback b).1 bs).1.buffer = _
    rw [this.1, hb, List.flatten_cons, List.append_assoc]

/-- `stop` always returns the accumulated buffer (the empty-buffer branch
returns `[]`, which is that buffer). -/
theorem stop_fst (st : RecorderState α) : st.stop.1 = st.buffer := by
  unfold RecorderState.stop
  by_cases hz : st.buffer.length = 0
  · simp only [hz, if_pos]
    exact (List.length_eq_zero.mp hz).symm
  · simp [hz]

/-- `stop` clears the buffer and the recording flag in every branch. -/
theorem stop_state (st : RecorderState α) :
    st.stop.2.buffer = [] ∧ st.stop.2.recording = false := by
  unfold RecorderState.stop
  by_cases hz : st.buffer.length = 0
  · simp only [hz, if_pos]
    exact ⟨List.length_eq_zero.mp hz, trivial⟩
  · simp [hz]

/-- C5: blocks fed before any `start` leave the accumulated length 0; after
`start`, `stop` returns exactly the concatenation of the fed blocks in
arrival order (within capacity); feeding after `stop` is a no-op; and `stop`
on a stopped recorder returns an empty block with the internal state
cleared. -/
theorem c5_session_lifecycle :
    (∀ (α : Type) (blocks : List (List α)),
        (runFeeds RecorderState.init blocks).1.buffer.length = 0) ∧
    (∀ (α : Type) (cb : Bool) (cs : ℕ) (blocks : List (List α)),
        blocks.flatten.length ≤ BUFFER_SIZE →
        ((runFeeds (RecorderState.start cb cs) blocks).1.stop).1 =
          blocks.flatten) ∧
    (∀ (α : Type) (st : RecorderState α) (b : List α),
        (st.stop.2).callback b = (st.stop.2, none)) ∧
    (∀ (α : Type) (st : RecorderState α),
        st.stop.2.buffer = [] ∧ st.stop.2.recording = false ∧
          (st.stop.2.stop).1 = []) := by
  refine ⟨?_, ?_, ?_, ?_⟩
  · intro α blocks
    rw [runFeeds_not_recording blocks RecorderState.init rfl]
    rfl
  · intro α cb cs blocks h
    obtain ⟨hbuf, -⟩ := runFeeds_buffer_within blocks
      (RecorderState.start cb cs) rfl (by simpa [RecorderState.start] using h)
    have hbuf' : (runFeeds (RecorderState.start cb cs) blocks).1.buffer =
        blocks.flatten := by
      simpa [RecorderState.start] using hbuf
    rw [stop_fst, hbuf']
  · intro α st b
    exact callback_not_recording _ b (stop_state st).2
  · intro α st
    exact ⟨(stop_state st).1, (stop_state st).2,
      by rw [stop_fst, (stop_state st).1]⟩

/-- C5 (witness): a concrete two-block session, plus the no-op and
empty-stop conclusions at a concrete stopped state. -/
theorem c5_session_lifecycle_witness :
    ((runFeeds RecorderState.init [[1, 2], [3]]).1.buffer.length = 0) ∧
    (([[1, 2], [3]] : List (List ℕ)).flatten.length ≤ BUFFER_SIZE ∧
      ((runFeeds (RecorderState.start true 2) [[1, 2], [3]]).1.stop).1 =
        ([[1, 2], [3]] : List (List ℕ)).flatten) ∧
    (((⟨[4], true, true, 2, 0⟩ : RecorderState ℕ).stop.2).callback [9] =
      ((⟨[4], true, true, 2, 0⟩ : RecorderState ℕ).stop.2, none)) ∧
    ((⟨[4], true, true, 2, 0⟩ : RecorderState ℕ).stop.2.buffer = [] ∧
      (⟨[4], true, true, 2, 0⟩ : RecorderState ℕ).stop.2.recording = false ∧
      ((⟨[4], true, true, 2, 0⟩ : RecorderState ℕ).stop.2.stop).1 = []) :=
  ⟨c5_session_lifecycle.1 ℕ [[1, 2], [3]],
   ⟨by decide, c5_session_lifecycle.2.1 ℕ true 2 [[1, 2], [3]] (by decide)⟩,
   c5_session_lifecycle.2.2.1 ℕ ⟨[4], true, true, 2, 0⟩ [9],
   c5_session_lifecycle.2.2.2 ℕ ⟨[4], true, true, 2, 0⟩⟩

/-- While recording, the buffer after `_callback` is the old buffer plus the
prefix of the block that fits below the cap, in every notification branch. -/
theorem callback_buffer_eq (st : RecorderState α) (b : List α)
    (hr : st.recording = true) :
    (st.callback b).1.buffer = st.buffer ++ b.take
      (min (st.buffer.length + b.length) BUFFER_SIZE - st.buffer.length) := by
  unfold RecorderState.callback
  by_cases hc : st.hasCallback ∧ 0 < st.chunkSamples
  · by_cases hcnt : st.chunkSamples ≤ st.samplesSinceChunk + b.length <;>
      simp [hr, hc, hcnt]
  · simp [hr, hc]

theorem callback_length_le (st : RecorderState α) (b : List α)
    (h : st.buffer.length ≤ BUFFER_SIZE) :
    (st.callback b).1.buffer.length ≤ BUFFER_SIZE := by
  by_cases hr : st.recording
  · rw [callback_buffer_eq st b hr]
    simp only [List.length_append, List.length_take]
    omega
  · rw [callback_not_recording st b (by simpa using hr)]
    exact h

/-- C9: feeding is total (every `_callback` step is a defined state
transition); starting a session and feeding any blocks never accumulates more
than `BUFFER_SIZE` samples; a step never exceeds the cap when the state is
within it; and samples already stored are preserved (the new buffer extends
the old one, so an overflowing block only loses its own tail). -/
theorem c9_capacity_cap :
    (∀ (α : Type) (cb : Bool) (cs : ℕ) (blocks : List (List α)),
        (runFeeds (RecorderState.start cb cs) blocks).1.buffer.length ≤
          BUFFER_SIZE) ∧
    (∀ (α : Type) (st : RecorderState α) (b : List α),
        st.buffer.length ≤ BUFFER_SIZE →
        (st.callback b).1.buffer.length ≤ BUFFER_SIZE) ∧
    (∀ (α : Type) (st : RecorderState α) (b : List α),
        ∃ u, st.buffer ++ u = (st.callback b).1.buffer) := by
  have step : ∀ (α : Type) (st : RecorderState α) (b : List α),
      ∃ u, st.buffer ++ u = (st.callback b).1.buffer := by
    intro α st b
    by_cases hr : st.recording
    · exact ⟨_, (callback_buffer_eq st b hr).symm⟩
    · exact ⟨[], by rw [callback_not_recording st b (by simpa using hr),
        List.append_nil]⟩
  refine ⟨?_, fun α => callback_length_le, step⟩
  intro α cb cs blocks
  have : ∀ (bs : List (List α)) (st : RecorderState α),
      st.buffer.length ≤ BUFFER_SIZE →
      (runFeeds st bs).1.buffer.length ≤ BUFFER_SIZE := by
    intro bs
    induction bs with
    | nil => intro st h; exact h
    | cons b bs ih =>
      intro st h
      exact ih (st.callback b).1 (callback_length_le st b h)
  exact this blocks (RecorderState.start cb cs) (by simp [RecorderState.start])

/-- C9 (witness): a concrete session and a concrete step within capacity. -/
theorem c9_capacity_cap_witness :
    ((runFeeds (RecorderState.start true 2) [[1, 2], [3]]).1.buffer.length ≤
      BUFFER_SIZE) ∧
    ((⟨[4], true, true, 2, 0⟩ : RecorderState ℕ).buffer.length ≤ BUFFER_SIZE ∧
      (((⟨[4], true, true, 2, 0⟩ : RecorderState ℕ).callback
          [9]).1.buffer.length ≤ BUFFER_SIZE)) ∧
    (∃ u, ([4] : List ℕ) ++ u =
      ((⟨[4], true, true, 2, 0⟩ : RecorderState ℕ).callback [9]).1.buffer) :=
  ⟨c9_capacity_cap.1 ℕ true 2 [[1, 2], [3]],
   ⟨by decide, c9_capacity_cap.2.1 ℕ ⟨[4], true, true, 2, 0⟩ [9] (by decide)⟩,
   c9_capacity_cap.2.2 ℕ ⟨[4], true, true, 2, 0⟩ [9]⟩

/-! ## SignalFilters (src/dictation/audio.py lines 14-83).  Samples are
idealised as real numbers; the `.astype(DTYPE)` float32 casts are identity
under this idealisation. -/

noncomputable section

/-- `SAMPLE_RATE = 16000` (audio.py line 9), as a real scalar for the DSP
formulas. -/
def SAMPLE_RATE : ℝ := 16000

/-- `np.max(np.abs(audio))`: the peak absolute sample (0 on empty input;
the code only evaluates it on non-empty input). -/
def maxAbs (audio : List ℝ) : ℝ :=
  (audio.map (fun x => |x|)).foldr max 0

/-- `normalize_audio(audio, target_level)` (audio.py lines 14-21). -/
def normalize_audio (audio : List ℝ) (target_level : ℝ) : List ℝ :=
  if audio = [] then audio
  else
    if 0 < maxAbs audio then
      audio.map (fun x => x * (target_level / maxAbs audio))
    else audio

/-- State-passing core of `scipy.signal.lfilter(b, a, x)` for first-order
coefficient vectors `b = [b0, b1]`, `a = [1, a1]` with zero initial
conditions: `y[n] = b0·x[n] + b1·x[n-1] − a1·y[n-1]`. -/
def lfilter1Go (b0 b1 a1 : ℝ) (xp yp : ℝ) : List ℝ → List ℝ
  | [] => []
  | x :: xs =>
    (b0 * x + b1 * xp - a1 * yp) ::
      lfilter1Go b0 b1 a1 x (b0 * x + b1 * xp - a1 * yp) xs

/-- `scipy.signal.lfilter([b0, b1], [1, a1], x)` with `x[-1] = y[-1] = 0`. -/
def lfilter1 (b0 b1 a1 : ℝ) (x : List ℝ) : List ℝ :=
  lfilter1Go b0 b1 a1 0 0 x

/-- `attack_coef` (audio.py line 35): `1 - exp(-1000/(SAMPLE_RATE*attack_ms))`
when `attack_ms > 0`, else 1. -/
def attackCoef (attack_ms : ℝ) : ℝ :=
  if 0 < attack_ms then 1 - Real.exp (-1000 / (SAMPLE_RATE * attack_ms))
  else 1

/-- `release_coef` (audio.py line 36). -/
def releaseCoef (release_ms : ℝ) : ℝ :=
  if 0 < release_ms then 1 - Real.exp (-1000 / (SAMPLE_RATE * release_ms))
  else 1

/-- `avg_coef = (attack_coef + release_coef) / 2` (audio.py line 40). -/
def avgCoef (attack_ms release_ms : ℝ) : ℝ :=
  (attackCoef attack_ms + releaseCoef release_ms) / 2

/-- The vectorized gain of audio.py lines 47-51: `1` at or below the
threshold, `(threshold + (e - threshold)/ratio)/e` above it. -/
def compGain (threshold ratio e : ℝ) : ℝ :=
  if threshold < e then (threshold + (e - threshold) / ratio) / e else 1

/-- `compress_audio(audio, threshold, ratio, attack_ms, release_ms)`
(audio.py lines 24-53): envelope via `lfilter([avg_coef], [1, -(1-avg_coef)])`
over `abs(audio)`, clamped below at `1e-10`, then sample-wise gain. -/
def compress_audio (audio : List ℝ)
    (threshold ratio attack_ms release_ms : ℝ) : List ℝ :=
  if audio = [] then audio
  else
    List.zipWith (fun x g => x * g) audio
      (((lfilter1 (avgCoef attack_ms release_ms) 0
            (-(1 - avgCoef attack_ms release_ms))
            (audio.map (fun x => |x|))).map
          (fun e => max e (1e-10))).map
        (compGain threshold ratio))

/-- `apply_highpass(audio, cutoff_hz)` (audio.py lines 56-68):
`lfilter([alpha, -alpha], [1, -alpha])` with `alpha = rc/(rc+dt)`,
`rc = 1/(2π·cutoff_hz)`, `dt = 1/SAMPLE_RATE`. -/
def apply_highpass (audio : List ℝ) (cutoff_hz : ℝ) : List ℝ :=
  if audio = [] then audio
  else
    lfilter1 ((1 / (2 * Real.pi * cutoff_hz)) /
        (1 / (2 * Real.pi * cutoff_hz) + 1 / SAMPLE_RATE))
      (-((1 / (2 * Real.pi * cutoff_hz)) /
        (1 / (2 * Real.pi * cutoff_hz) + 1 / SAMPLE_RATE)))
      (-((1 / (2 * Real.pi * cutoff_hz)) /
        (1 / (2 * Real.pi * cutoff_hz) + 1 / SAMPLE_RATE)))
      audio

/-- `process_audio(audio, normalize, compress, highpass)` (audio.py lines
71-83): enabled stages applied in the order highpass → compress → normalize,
with the source's default stage parameters. -/
def process_audio (audio : List ℝ) (normalize compress highpass : Bool) :
    List ℝ :=
  if audio = [] then audio
  else
    let a1 := if highpass then apply_highpass audio 80 else audio
    let a2 := if compress then compress_audio a1 0.3 4 5 50 else a1
    if normalize then normalize_audio a2 0.9 else a2

/-! Specification-side DSP definitions, for comparison with the code. -/

/-- The claim's compressor coefficient: `1 − exp(−1/N)` with `N` the number
of samples of attack time, `N = SAMPLE_RATE·ms/1000`. -/
def attackCoefClaim (attack_ms : ℝ) : ℝ :=
  if 0 < attack_ms then
    1 - Real.exp (-(1 / (SAMPLE_RATE * attack_ms / 1000)))
  else 1

/-- The claim's release coefficient, as `attackCoefClaim`. -/
def releaseCoefClaim (release_ms : ℝ) : ℝ :=
  if 0 < release_ms then
    1 - Real.exp (-(1 / (SAMPLE_RATE * release_ms / 1000)))
  else 1

/-- Symmetric one-pole smoothing `e[n] = c·x[n] + (1−c)·e[n-1]`, `e[-1]=0`:
the recurrence realised by the code's `lfilter([c], [1, -(1-c)])`. -/
def avgEnvelopeGo (c prev : ℝ) : List ℝ → List ℝ
  | [] => []
  | x :: xs =>
    (c * x + (1 - c) * prev) ::
      avgEnvelopeGo c (c * x + (1 - c) * prev) xs

/-- Asymmetric one-pole smoothing as worded by the claim: the coefficient is
the attack coefficient when the envelope is rising (input above the current
envelope), the release coefficient when it is falling. -/
def asymEnvelopeGo (atk rel prev : ℝ) : List ℝ → List ℝ
  | [] => []
  | x :: xs =>
    ((if prev < x then atk else rel) * x +
        (1 - (if prev < x then atk else rel)) * prev) ::
      asymEnvelopeGo atk rel
        ((if prev < x then atk else rel) * x +
          (1 - (if prev < x then atk else rel)) * prev) xs

/-- The compressor described by claim C2: asymmetric attack/release envelope
over the absolute samples, gain 1 at or below the threshold and
`(threshold + (e−threshold)/ratio)/e` above it, output = input × gain. -/
def compressClaim (audio : List ℝ)
    (threshold ratio attack_ms release_ms : ℝ) : List ℝ :=
  List.zipWith (fun x g => x * g) audio
    ((asymEnvelopeGo (attackCoefClaim attack_ms) (releaseCoefClaim release_ms)
        0 (audio.map (fun x => |x|))).map
      (compGain threshold ratio))

/-- The compressor of the amended claim C2: the same coefficients written in
`1 − exp(−1/N)` form, but a *symmetric* one-pole envelope using the average
of the attack and release coefficients, clamped below at `1e-10`. -/
def compressAmended (audio : List ℝ)
    (threshold ratio attack_ms release_ms : ℝ) : List ℝ :=
  List.zipWith (fun x g => x * g) audio
    (((avgEnvelopeGo
          ((attackCoefClaim attack_ms + releaseCoefClaim release_ms) / 2) 0
          (audio.map (fun x => |x|))).map
        (fun e => max e (1e-10))).map
      (compGain threshold ratio))

/-- `alpha` of `apply_highpass`. -/
def hpAlpha (cutoff_hz : ℝ) : ℝ :=
  (1 / (2 * Real.pi * cutoff_hz)) /
    (1 / (2 * Real.pi * cutoff_hz) + 1 / SAMPLE_RATE)

/-- The spec's highpass reference recurrence
`y[n] = alpha·(y[n-1] + x[n] − x[n-1])`, `y[-1] = x[-1] = 0`. -/
def highpassSpecGo (alpha xp yp : ℝ) : List ℝ → List ℝ
  | [] => []
  | x :: xs =>
    (alpha * (yp + x - xp)) ::
      highpassSpecGo alpha x (alpha * (yp + x - xp)) xs

/-- The spec-side highpass filter built from the reference recurrence. -/
def highpassSpec (audio : List ℝ) (cutoff_hz : ℝ) : List ℝ :=
  highpassSpecGo (hpAlpha cutoff_hz) 0 0 audio

end

theorem lfilter1Go_length (b0 b1 a1 : ℝ) :
    ∀ (xs : List ℝ) (xp yp : ℝ),
      (lfilter1Go b0 b1 a1 xp yp xs).length = xs.length := by
  intro xs
  induction xs with
  | nil => intro xp yp; rfl
  | cons x xs ih => intro xp yp; simp [lfilter1Go, ih]

theorem lfilter1Go_hp (alpha : ℝ) :
    ∀ (xs : List ℝ) (xp yp : ℝ),
      lfilter1Go alpha (-alpha) (-alpha) xp yp xs =
        highpassSpecGo alpha xp yp xs := by
  intro xs
  induction xs with
  | nil => intro xp yp; rfl
  | cons x xs ih =>
    intro xp yp
    have hy : alpha * x + (-alpha) * xp - (-alpha) * yp =
        alpha * (yp + x - xp) := by ring
    simp only [lfilter1Go, highpassSpecGo, hy, ih]

/-- C8: the implemented highpass (`lfilter` with `b=[alpha,−alpha]`,
`a=[1,−alpha]`) equals the reference recurrence
`y[n] = alpha·(y[n−1] + x[n] − x[n−1])` with zero initial conditions and
`alpha = rc/(rc+dt)`, and the output has the input's length. -/
theorem c8_highpass_refines (audio : List ℝ) (cutoff_hz : ℝ) :
    apply_highpass audio cutoff_hz = highpassSpec audio cutoff_hz ∧
    (apply_highpass audio cutoff_hz).length = audio.length := by
  constructor
  · unfold apply_highpass highpassSpec hpAlpha
    by_cases h : audio = []
    · subst h; simp [lfilter1, lfilter1Go, highpassSpecGo]
    · rw [if_neg h]
      exact lfilter1Go_hp _ audio 0 0
  · unfold apply_highpass
    by_cases h : audio = []
    · simp [h]
    · rw [if_neg h]
      exact lfilter1Go_length _ _ _ audio 0 0

theorem maxAbs_nonneg (audio : List ℝ) : 0 ≤ maxAbs audio := by
  induction audio with
  | nil => exact le_refl 0
  | cons x xs ih =>
    have : maxAbs (x :: xs) = max |x| (maxAbs xs) := rfl
    rw [this]
    exact le_trans ih (le_max_right _ _)

theorem maxAbs_scale (audio : List ℝ) (c : ℝ) (hc : 0 ≤ c) :
    maxAbs (audio.map (fun x => x * c)) = maxAbs audio * c := by
  induction audio with
  | nil => simp [maxAbs]
  | cons x xs ih =>
    have h1 : maxAbs ((x :: xs).map (fun x => x * c)) =
        max (|x * c|) (maxAbs (xs.map (fun x => x * c))) := rfl
    have h2 : maxAbs (x :: xs) = max |x| (maxAbs xs) := rfl
    rw [h1, h2, ih, abs_mul, abs_of_nonneg hc, max_mul_of_nonneg _ _ hc]

/-- C6: `normalize` is the identity on empty or all-zero input (peak 0), and
otherwise rescales so that the output's peak absolute value is exactly the
target level (for any nonnegative target, in particular the default 0.9). -/
theorem c6_normalize_peak (audio : List ℝ) (target_level : ℝ)
    (ht : 0 ≤ target_level) :
    ((audio = [] ∨ maxAbs audio = 0) →
      normalize_audio audio target_level = audio) ∧
    (maxAbs audio ≠ 0 →
      maxAbs (normalize_audio audio target_level) = target_level) := by
  constructor
  · rintro (h | h)
    · simp [normalize_audio, h]
    · unfold normalize_audio
      rw [h]
      simp
  · intro h
    have hpos : 0 < maxAbs audio := lt_of_le_of_ne (maxAbs_nonneg audio)
      (Ne.symm h)
    have hne : audio ≠ [] := by
      intro he
      rw [he] at h
      exact h rfl
    unfold normalize_audio
    rw [if_neg hne, if_pos hpos,
      maxAbs_scale audio _ (div_nonneg ht (le_of_lt hpos))]
    field_simp

theorem lfilter1Go_avg (c : ℝ) :
    ∀ (xs : List ℝ) (xp yp : ℝ),
      lfilter1Go c 0 (-(1 - c)) xp yp xs = avgEnvelopeGo c yp xs := by
  intro xs
  induction xs with
  | nil => intro xp yp; rfl
  | cons x xs ih =>
    intro xp yp
    have hy : c * x + 0 * xp - -(1 - c) * yp = c * x + (1 - c) * yp := by
      ring
    simp only [lfilter1Go, avgEnvelopeGo, hy, ih]

theorem attackCoefClaim_eq (ms : ℝ) : attackCoefClaim ms = attackCoef ms := by
  unfold attackCoefClaim attackCoef
  by_cases h : 0 < ms
  · rw [if_pos h, if_pos h]
    have harg : -(1 / (SAMPLE_RATE * ms / 1000)) =
        (-1000 / (SAMPLE_RATE * ms) : ℝ) := by
      rw [one_div_div, neg_div]
    rw [harg]
  · rw [if_neg h, if_neg h]

/-- C2 (amended): the compressor equals the claim restated with a *symmetric*
envelope — one-pole smoothing of the absolute samples with the single
averaged coefficient `(attack_coef + release_coef)/2`, each coefficient
`1 − exp(−1/N)` with `N` the samples of attack or release time, the envelope
clamped below at `1e-10` — and per-sample gain 1 at or below the threshold,
`(threshold + (e−threshold)/ratio)/e` above it, output = input × gain. -/
theorem c2_compress_amended (audio : List ℝ)
    (threshold ratio attack_ms release_ms : ℝ) :
    compress_audio audio threshold ratio attack_ms release_ms =
      compressAmended audio threshold ratio attack_ms release_ms := by
  unfold compress_audio compressAmended
  by_cases h : audio = []
  · subst h; simp
  · rw [if_neg h]
    have hc : (attackCoefClaim attack_ms + releaseCoefClaim release_ms) / 2 =
        avgCoef attack_ms release_ms := by
      have h2 : releaseCoefClaim release_ms = attackCoefClaim release_ms :=
        rfl
      have h3 : releaseCoef release_ms = attackCoef release_ms := rfl
      rw [h2, attackCoefClaim_eq, attackCoefClaim_eq, avgCoef, h3]
    rw [hc, lfilter1, lfilter1Go_avg]

/-- C2 (counterexample): with the default attack 5 ms / release 50 ms, input
`[1]`, threshold `1/100` and ratio `2`, the code's symmetric averaged
envelope stays below the threshold (gain 1, output `[1]`) while the
asymmetric attack/release envelope described by the claim exceeds it, giving
a gain strictly below 1 — so the code is not the claimed computation. -/
theorem c2_counterexample :
    compress_audio [1] (1 / 100) 2 5 50 = [1] ∧
    compressClaim [1] (1 / 100) 2 5 50 ≠ [1] := by
  have hatk : attackCoef 5 = 1 - Real.exp (-(1 / 80)) := by
    unfold attackCoef
    rw [if_pos (by norm_num : (0 : ℝ) < 5)]
    norm_num [SAMPLE_RATE]
  have hrel : releaseCoef 50 = 1 - Real.exp (-(1 / 800)) := by
    unfold releaseCoef
    rw [if_pos (by norm_num : (0 : ℝ) < 50)]
    norm_num [SAMPLE_RATE]
  have hatkC : attackCoefClaim 5 = 1 - Real.exp (-(1 / 80)) := by
    rw [attackCoefClaim_eq]; exact hatk
  have hrelC : releaseCoefClaim 50 = 1 - Real.exp (-(1 / 800)) := by
    have h0 : releaseCoefClaim 50 = attackCoefClaim 50 := rfl
    have h1 : attackCoef 50 = releaseCoef 50 := rfl
    rw [h0, attackCoefClaim_eq, h1]; exact hrel
  have hA1 : Real.exp (-(1 / 80) : ℝ) ≤ 80 / 81 := by
    have h := Real.add_one_le_exp (1 / 80 : ℝ)
    rw [Real.exp_neg]
    calc (Real.exp (1 / 80))⁻¹ ≤ ((81 : ℝ) / 80)⁻¹ :=
          inv_anti₀ (by norm_num) (by linarith)
      _ = 80 / 81 := by norm_num
  have hA2 : 1 - Real.exp (-(1 / 80) : ℝ) ≤ 1 / 80 := by
    have := Real.add_one_le_exp (-(1 / 80) : ℝ)
    linarith
  have hAlb : (1 / 81 : ℝ) ≤ 1 - Real.exp (-(1 / 80)) := by linarith
  have hR1 : Real.exp (-(1 / 800) : ℝ) < 1 := by
    rw [← Real.exp_zero]
    exact Real.exp_lt_exp.mpr (by norm_num)
  have hR2 : 1 - Real.exp (-(1 / 800) : ℝ) ≤ 1 / 800 := by
    have := Real.add_one_le_exp (-(1 / 800) : ℝ)
    linarith
  have havg : avgCoef 5 50 = (attackCoef 5 + releaseCoef 50) / 2 := rfl
  have havg_ub : avgCoef 5 50 < 1 / 100 := by
    rw [havg, hatk, hrel]; linarith
  have havg_lb : (1e-10 : ℝ) ≤ avgCoef 5 50 := by
    rw [havg, hatk, hrel]
    have h162 : (1e-10 : ℝ) ≤ 1 / 162 := by norm_num
    linarith
  constructor
  · unfold compress_audio
    rw [if_neg (by simp : ¬([(1 : ℝ)] = []))]
    have hmap : ([(1 : ℝ)].map fun x => |x|) = [1] := by simp
    rw [hmap]
    have hfil : lfilter1 (avgCoef 5 50) 0 (-(1 - avgCoef 5 50)) [1] =
        [avgCoef 5 50] := by
      show [avgCoef 5 50 * 1 + 0 * 0 - -(1 - avgCoef 5 50) * 0] = _
      norm_num
    rw [hfil]
    have hclamp : ([avgCoef 5 50].map fun e => max e (1e-10)) =
        [avgCoef 5 50] := by
      simp [max_eq_left havg_lb]
    rw [hclamp]
    have hgain : compGain (1 / 100) 2 (avgCoef 5 50) = 1 := by
      unfold compGain
      rw [if_neg (not_lt.mpr (le_of_lt havg_ub))]
    simp only [List.map_cons, List.map_nil, hgain, List.zipWith_cons_cons,
      List.zipWith_nil_right, List.zipWith_nil_left, mul_one]
  · unfold compressClaim
    have hmap : ([(1 : ℝ)].map fun x => |x|) = [1] := by simp
    rw [hmap]
    have henv : asymEnvelopeGo (attackCoefClaim 5) (releaseCoefClaim 50) 0
        [1] = [attackCoefClaim 5] := by
      show [(if (0 : ℝ) < 1 then attackCoefClaim 5 else releaseCoefClaim 50) *
          1 + (1 - (if (0 : ℝ) < 1 then attackCoefClaim 5
            else releaseCoefClaim 50)) * 0] = _
      rw [if_pos (by norm_num : (0 : ℝ) < 1)]
      norm_num
    rw [henv]
    have h100 : (1 / 100 : ℝ) < attackCoefClaim 5 := by
      rw [hatkC]; linarith
    have hgainC : compGain (1 / 100) 2 (attackCoefClaim 5) =
        (1 / 100 + (attackCoefClaim 5 - 1 / 100) / 2) / attackCoefClaim 5 :=
      if_pos h100
    have hpos : 0 < attackCoefClaim 5 := lt_trans (by norm_num) h100
    simp only [List.map_cons, List.map_nil, hgainC, List.zipWith_cons_cons,
      List.zipWith_nil_right, one_mul]
    intro hcontra
    have hg : (1 / 100 + (attackCoefClaim 5 - 1 / 100) / 2) /
        attackCoefClaim 5 = 1 := by
      have := List.head_eq_of_cons_eq hcontra
      exact this
    rw [div_eq_one_iff_eq (ne_of_gt hpos)] at hg
    linarith

/-- C6 (witness): a concrete one-sample input with nonzero peak, normalized
to the default target 0.9. -/
theorem c6_normalize_peak_witness :
    (0 : ℝ) ≤ 9 / 10 ∧ maxAbs [(1 / 2 : ℝ)] ≠ 0 ∧
    maxAbs (normalize_audio [(1 / 2 : ℝ)] (9 / 10)) = 9 / 10 := by
  have h1 : (0 : ℝ) ≤ 9 / 10 := by norm_num
  have h2 : maxAbs [(1 / 2 : ℝ)] ≠ 0 := by
    have : maxAbs [(1 / 2 : ℝ)] = max |(1 / 2 : ℝ)| 0 := rfl
    rw [this]
    norm_num
  exact ⟨h1, h2, (c6_normalize_peak _ _ h1).2 h2⟩

/-! ## Transcriber (src/dictation/transcriber.py).  The Whisper model is an
external collaborator, abstracted as a function `recognize` from processed
samples to recognized text. -/

noncomputable section

/-- `is_silence(audio, threshold)` (transcriber.py lines 45-50): empty audio
is silence; otherwise compare the RMS energy `sqrt(mean(audio²))` with the
threshold. -/
def is_silence (audio : List ℝ) (threshold : ℝ) : Prop :=
  audio = [] ∨
    Real.sqrt ((audio.map (fun x => x ^ 2)).sum / audio.length) < threshold

/-- The `HALLUCINATIONS` set (transcriber.py lines 54-67). -/
def HALLUCINATIONS : List (List Char) :=
  ["thank you".toList, "thanks for watching".toList,
   "thanks for listening".toList, "subscribe".toList,
   "like and subscribe".toList, "see you next time".toList, "bye".toList,
   "goodbye".toList, "you".toList, "the end".toList, "...".toList,
   ".".toList]

/-- `cleaned = text.lower().strip().rstrip(".!?,")` (transcriber.py
line 72). -/
def cleanedText (text : List Char) : List Char :=
  pyRstrip (pyStrip (pyLower text)) ".!?,".toList

/-- `is_hallucination(text)` (transcriber.py lines 70-73). -/
def is_hallucination (text : List Char) : Bool :=
  decide (cleanedText text ∈ HALLUCINATIONS) ||
    decide ((cleanedText text).length < 2)

open Classical

/-- `transcribe(audio)` (transcriber.py lines 76-101), with the recognition
model abstracted as `recognize` and the consumed configuration scalars as
arguments.  The second component records whether the model was invoked;
`result["text"].strip()` is `pyStrip` of the recognizer output. -/
def transcribe (recognize : List ℝ → List Char) (silence_threshold : ℝ)
    (audio_normalize audio_compress audio_highpass : Bool)
    (audio : List ℝ) : List Char × Bool :=
  if audio = [] ∨ is_silence audio silence_threshold then ([], false)
  else
    let text := pyStrip (recognize (process_audio audio audio_normalize
      audio_compress audio_highpass))
    if is_hallucination text then ([], true) else (text, true)

end

/-! Facts about the Python string primitives used by `is_hallucination`:
stripping the recognizer output before cleaning does not change the cleaned
form, because lowering preserves whitespace and stripping is idempotent. -/

theorem char_toNat_ofNat {n : ℕ} (h : n.isValidChar) :
    (Char.ofNat n).toNat = n := by
  unfold Char.ofNat
  rw [dif_pos h]
  rfl

theorem pyIsSpace_toLower (c : Char) :
    pyIsSpace (Char.toLower c) = pyIsSpace c := by
  show pyIsSpace (if c.toNat >= 65 ∧ c.toNat <= 90 then
    Char.ofNat (c.toNat + 32) else c) = pyIsSpace c
  split
  next h =>
    have hv : (c.toNat + 32).isValidChar := Or.inl (by omega)
    have ht : (Char.ofNat (c.toNat + 32)).toNat = c.toNat + 32 :=
      char_toNat_ofNat hv
    have h1 : pyIsSpace c = false := by
      simp only [pyIsSpace, Bool.or_eq_false_iff, decide_eq_false_iff_not]
      omega
    have h2 : pyIsSpace (Char.ofNat (c.toNat + 32)) = false := by
      simp only [pyIsSpace, ht, Bool.or_eq_false_iff, decide_eq_false_iff_not]
      omega
    rw [h1, h2]
  next => rfl

theorem pyIsSpace_comp : pyIsSpace ∘ Char.toLower = pyIsSpace :=
  funext pyIsSpace_toLower

theorem pyLower_dropWhile (l : List Char) :
    (pyLower l).dropWhile pyIsSpace = pyLower (l.dropWhile pyIsSpace) := by
  unfold pyLower
  rw [List.dropWhile_map, pyIsSpace_comp]

theorem pyLower_rdropWhile (l : List Char) :
    (pyLower l).rdropWhile pyIsSpace = pyLower (l.rdropWhile pyIsSpace) := by
  unfold List.rdropWhile pyLower
  rw [← List.map_reverse, List.dropWhile_map, pyIsSpace_comp,
    ← List.map_reverse]

theorem pyStrip_pyLower (l : List Char) :
    pyStrip (pyLower l) = pyLower (pyStrip l) := by
  unfold pyStrip
  rw [pyLower_dropWhile, pyLower_rdropWhile]

theorem dropWhile_rdropWhile_self (l : List Char) :
    ((l.dropWhile pyIsSpace).rdropWhile pyIsSpace).dropWhile pyIsSpace =
      (l.dropWhile pyIsSpace).rdropWhile pyIsSpace := by
  generalize hYdef : l.dropWhile pyIsSpace = Y
  have hY2 : Y.dropWhile pyIsSpace = Y := by
    rw [← hYdef, List.dropWhile_idempotent]
  cases hYr : Y.rdropWhile pyIsSpace with
  | nil => rfl
  | cons a as =>
    have hpre : Y.rdropWhile pyIsSpace <+: Y := List.rdropWhile_prefix _ _
    rw [hYr] at hpre
    obtain ⟨t, ht⟩ := hpre
    subst ht
    have hna : ¬(pyIsSpace a = true) := by
      have hhead := List.dropWhile_eq_self_iff.mp hY2 (by simp)
      simpa using hhead
    rw [List.dropWhile_cons_of_neg hna]

theorem pyStrip_idem (l : List Char) : pyStrip (pyStrip l) = pyStrip l := by
  unfold pyStrip
  rw [dropWhile_rdropWhile_self, List.rdropWhile_idempotent]

theorem pyStrip_pyLower_pyStrip (l : List Char) :
    pyStrip (pyLower (pyStrip l)) = pyStrip (pyLower l) := by
  rw [← pyStrip_pyLower, pyStrip_idem]

theorem cleanedText_pyStrip (t : List Char) :
    cleanedText (pyStrip t) = cleanedText t := by
  unfold cleanedText
  rw [pyStrip_pyLower_pyStrip]

/-- C7: `transcribe` returns the empty string without invoking the model on
empty input or when the RMS energy is below the silence threshold; and it
returns the empty string whenever the recognized text, compared case- and
trailing-punctuation-insensitively, matches the fixed junk-phrase set. -/
theorem c7_silence_and_junk_guard :
    (∀ (recognize : List ℝ → List Char) (th : ℝ) (n c hp : Bool)
        (audio : List ℝ), (audio = [] ∨ is_silence audio th) →
        transcribe recognize th n c hp audio = ([], false)) ∧
    (∀ (recognize : List ℝ → List Char) (th : ℝ) (n c hp : Bool)
        (audio : List ℝ),
        cleanedText (recognize (process_audio audio n c hp)) ∈
          HALLUCINATIONS →
        (transcribe recognize th n c hp audio).1 = []) := by
  constructor
  · intro recognize th n c hp audio h
    unfold transcribe
    rw [if_pos h]
  · intro recognize th n c hp audio h
    unfold transcribe
    by_cases hs : audio = [] ∨ is_silence audio th
    · rw [if_pos hs]
    · rw [if_neg hs]
      have hh : is_hallucination
          (pyStrip (recognize (process_audio audio n c hp))) = true := by
        unfold is_hallucination
        rw [cleanedText_pyStrip]
        simp [h]
      simp [hh]

/-- C7 (witness): a one-sample silent input with RMS 0 below threshold 1, and
a recognizer returning the junk phrase "thank you" on a non-silent input. -/
theorem c7_silence_and_junk_guard_witness :
    (([(0 : ℝ)] = [] ∨ is_silence [(0 : ℝ)] 1) ∧
      transcribe (fun _ => []) 1 true true true [(0 : ℝ)] = ([], false)) ∧
    (cleanedText "thank you".toList ∈ HALLUCINATIONS ∧
      (transcribe (fun _ => "thank you".toList) 0 true true true
        [(1 : ℝ)]).1 = []) := by
  have hsil : is_silence [(0 : ℝ)] 1 := by
    unfold is_silence
    right
    simp
  have hmem : cleanedText "thank you".toList ∈ HALLUCINATIONS := by decide
  exact ⟨⟨Or.inr hsil,
      c7_silence_and_junk_guard.1 _ 1 true true true _ (Or.inr hsil)⟩,
    ⟨hmem, c7_silence_and_junk_guard.2 (fun _ => "thank you".toList) 0
      true true true [(1 : ℝ)] hmem⟩⟩

/-- C10: any recognized text whose cleaned form (lowercased,
whitespace-stripped, trailing `.!?,` stripped) has fewer than 2 characters is
classified as a hallucination even outside the junk set, so `transcribe`
returns the empty string for every such recognition result. -/
theorem c10_short_text_filtered :
    (∀ text : List Char, (cleanedText text).length < 2 →
        is_hallucination text = true) ∧
    (∀ (recognize : List ℝ → List Char) (th : ℝ) (n c hp : Bool)
        (audio : List ℝ),
        (cleanedText (recognize (process_audio audio n c hp))).length < 2 →
        (transcribe recognize th n c hp audio).1 = []) := by
  constructor
  · intro text h
    unfold is_hallucination
    simp [h]
  · intro recognize th n c hp audio h
    unfold transcribe
    by_cases hs : audio = [] ∨ is_silence audio th
    · rw [if_pos hs]
    · rw [if_neg hs]
      have hh : is_hallucination
          (pyStrip (recognize (process_audio audio n c hp))) = true := by
        unfold is_hallucination
        rw [cleanedText_pyStrip]
        simp [h]
      simp [hh]

/-- C10 (witness): the single-character recognition "a" (cleaned length 1) is
filtered, both at the filter and through `transcribe`. -/
theorem c10_short_text_filtered_witness :
    ((cleanedText "a".toList).length < 2 ∧
      is_hallucination "a".toList = true) ∧
    ((cleanedText "a".toList).length < 2 ∧
      (transcribe (fun _ => "a".toList) 0 true true true [(1 : ℝ)]).1 =
        []) := by
  have hlen : (cleanedText "a".toList).length < 2 := by decide
  exact ⟨⟨hlen, c10_short_text_filtered.1 _ hlen⟩,
    ⟨hlen, c10_short_text_filtered.2 (fun _ => "a".toList) 0 true true true
      [(1 : ℝ)] hlen⟩⟩

end Dictation
